import Mathlib

/-!
Verification of the data-access core of the `starspring` repository:
the query-derivation compiler (`starspring/data/query_builder.py`),
the repository dispatch (`starspring/data/repository.py`), and the
transactional gateway (`starspring/data/orm_gateway.py`,
`starspring/data/transaction.py`).

Strings are modelled as `List Char` (Python `str` over ASCII method
names and SQL text).  Pure Python functions become Lean functions;
fallible code returns `Except PyErr`; the stateful gateway becomes
explicit state passing over a `GatewayState` record.
-/

/-- Python exception kinds raised by the embedded code paths:
`ValueError` (explicit raises) and `KeyError` (failed enum-name lookup
`QueryCondition[...]`). -/
inductive PyErr where
  | valueError
  | keyError
deriving DecidableEq, Repr

/-- Decidable equality for `Except`, so concrete runs of the embedded
fallible functions can be settled by `decide`. -/
instance {ε α : Type} [DecidableEq ε] [DecidableEq α] : DecidableEq (Except ε α) :=
  fun a b =>
    match a, b with
    | .ok x, .ok y =>
      if h : x = y then isTrue (by rw [h])
      else isFalse (fun hh => h (Except.ok.inj hh))
    | .error x, .error y =>
      if h : x = y then isTrue (by rw [h])
      else isFalse (fun hh => h (Except.error.inj hh))
    | .ok _, .error _ => isFalse (fun hh => Except.noConfusion hh)
    | .error _, .ok _ => isFalse (fun hh => Except.noConfusion hh)

/-! ### ASCII character classes and case maps (Python `str` semantics) -/

/-- `[a-z]` (ASCII lowercase letter), as matched by the regexes in
`QueryMethodParser._camel_to_snake`. -/
def isLowB (c : Char) : Bool := decide (97 ≤ c.toNat ∧ c.toNat ≤ 122)

/-- `[A-Z]` (ASCII uppercase letter). -/
def isUpB (c : Char) : Bool := decide (65 ≤ c.toNat ∧ c.toNat ≤ 90)

/-- `[0-9]` (ASCII digit). -/
def isDigB (c : Char) : Bool := decide (48 ≤ c.toNat ∧ c.toNat ≤ 57)

/-- ASCII uppercase map, the effect of Python `str.upper` on one char. -/
def upChar (c : Char) : Char :=
  if 97 ≤ c.toNat ∧ c.toNat ≤ 122 then Char.ofNat (c.toNat - 32) else c

/-- ASCII lowercase map, the effect of Python `str.lower` on one char. -/
def lowChar (c : Char) : Char :=
  if 65 ≤ c.toNat ∧ c.toNat ≤ 90 then Char.ofNat (c.toNat + 32) else c

/-- Python `str.upper` over a whole (ASCII) string. -/
def upperStr (s : List Char) : List Char := s.map upChar

/-- Python `str.lower` over a whole (ASCII) string. -/
def lowerStr (s : List Char) : List Char := s.map lowChar

/-- Is the head of the list an ASCII lowercase letter?  (Used for the
`[a-z]+` part of the first `_camel_to_snake` regex.) -/
def headLowB : List Char → Bool
  | [] => false
  | c :: _ => isLowB c

/-! ### `QueryMethodParser._camel_to_snake`

Python:
```
s1 = re.sub('(.)([A-Z][a-z]+)', r'\1_\2', name)
return re.sub('([a-z0-9])([A-Z])', r'\1_\2', s1).lower()
```
`re.sub` scans left to right, replaces leftmost non-overlapping
matches, and resumes scanning after the end of each match. -/

/-- First substitution pass, `re.sub('(.)([A-Z][a-z]+)', r'\1_\2', _)`.
The flag is `true` while we are inside the (greedy, already consumed)
`[a-z]+` run of the previous match, where no new match may start until
the run ends. -/
def sub1A : Bool → List Char → List Char
  | _, [] => []
  | _, [c] => [c]
  | inRun, c :: c₂ :: rest =>
    if inRun && isLowB c then
      c :: sub1A true (c₂ :: rest)
    else if isUpB c₂ && headLowB rest then
      c :: '_' :: c₂ :: sub1A true rest
    else
      c :: sub1A false (c₂ :: rest)

/-- The first `_camel_to_snake` regex pass. -/
def sub1 (s : List Char) : List Char := sub1A false s

/-- Second substitution pass, `re.sub('([a-z0-9])([A-Z])', r'\1_\2', _)`. -/
def sub2 : List Char → List Char
  | [] => []
  | [c] => [c]
  | c₁ :: c₂ :: rest =>
    if (isLowB c₁ || isDigB c₁) && isUpB c₂ then
      c₁ :: '_' :: c₂ :: sub2 rest
    else
      c₁ :: sub2 (c₂ :: rest)

/-- `QueryMethodParser._camel_to_snake`: both regex passes, then
`.lower()`. -/
def camelToSnake (s : List Char) : List Char := lowerStr (sub2 (sub1 s))

/-! ### Data model of `query_builder.py` -/

/-- `QueryOperation` enum: `find | count | delete | exists`. -/
inductive QueryOperation where
  | find
  | count
  | delete
  | exists
deriving DecidableEq, Repr

/-- `QueryCondition` enum (member names kept, keywords suffixed with `C`
or `Op` where Lean reserves them). -/
inductive QueryCondition where
  | equals
  | andC
  | orC
  | greaterThan
  | lessThan
  | greaterThanEqual
  | lessThanEqual
  | like
  | containing
  | startingWith
  | endingWith
  | between
  | inOp
  | notOp
  | isNull
  | isNotNull
  | trueC
  | falseC
deriving DecidableEq, Repr

/-- `QueryPart`: field (already snake_cased), operator, and the optional
`AND`/`OR` connector string. -/
structure QueryPart where
  field : List Char
  operator : QueryCondition
  connector : Option (List Char)
deriving DecidableEq, Repr

/-- `ParsedQuery`: operation, ordered condition parts, ordered
`(field, direction)` order-by list. -/
structure ParsedQuery where
  operation : QueryOperation
  parts : List QueryPart
  orderBy : List (List Char × List Char)
deriving DecidableEq, Repr

/-- Name lookup `QueryCondition[name]` on the Python enum: returns the
member whose *name* is the given string, or fails (`KeyError`). -/
def enumByName (n : List Char) : Option QueryCondition :=
  if n = ("EQUALS").data then some .equals
  else if n = ("AND").data then some .andC
  else if n = ("OR").data then some .orC
  else if n = ("GREATER_THAN").data then some .greaterThan
  else if n = ("LESS_THAN").data then some .lessThan
  else if n = ("GREATER_THAN_EQUAL").data then some .greaterThanEqual
  else if n = ("LESS_THAN_EQUAL").data then some .lessThanEqual
  else if n = ("LIKE").data then some .like
  else if n = ("CONTAINING").data then some .containing
  else if n = ("STARTING_WITH").data then some .startingWith
  else if n = ("ENDING_WITH").data then some .endingWith
  else if n = ("BETWEEN").data then some .between
  else if n = ("IN").data then some .inOp
  else if n = ("NOT").data then some .notOp
  else if n = ("IS_NULL").data then some .isNull
  else if n = ("IS_NOT_NULL").data then some .isNotNull
  else if n = ("TRUE").data then some .trueC
  else if n = ("FALSE").data then some .falseC
  else none

/-- `QueryMethodParser.CONDITION_PATTERNS`, in dict insertion order. -/
def conditionPatterns : List String :=
  ["GreaterThanEqual", "LessThanEqual", "GreaterThan", "LessThan",
   "Containing", "StartingWith", "EndingWith", "Between", "Like",
   "In", "IsNull", "IsNotNull", "True", "False", "Not"]

/-- Python `"THAN"`-to-`"_THAN"` replacement:
`str.replace('THAN', '_THAN')` (leftmost, non-overlapping). -/
def replaceThan : List Char → List Char
  | 'T' :: 'H' :: 'A' :: 'N' :: rest => '_' :: 'T' :: 'H' :: 'A' :: 'N' :: replaceThan rest
  | c :: rest => c :: replaceThan rest
  | [] => []

/-- `QueryMethodParser._parse_single_condition`: try each operator
suffix in `CONDITION_PATTERNS` order with `str.endswith`; on a hit,
drop the suffix and look the operator up by the transformed enum name
(`op_name.upper().replace('THAN', '_THAN')`, which raises `KeyError`
when the transformed string is not a member name); with no hit the
condition is a bare field, i.e. `EQUALS`. -/
def parseSingleCondition (t : List Char) : Except PyErr (List Char × QueryCondition) :=
  match conditionPatterns.find? (fun op => List.isSuffixOf op.data t) with
  | some op =>
    match enumByName (replaceThan (upperStr op.data)) with
    | some qc => .ok (camelToSnake (t.take (t.length - op.data.length)), qc)
    | none => .error .keyError
  | none => .ok (camelToSnake t, .equals)

/-- `re.split(r'(And|Or)', s)` with captured separators kept, as used by
`QueryMethodParser._parse_conditions`.  `acc` holds the current text
chunk reversed. -/
def splitCondAux (acc : List Char) : List Char → List (List Char)
  | [] => [acc.reverse]
  | 'A' :: 'n' :: 'd' :: rest => acc.reverse :: (['A', 'n', 'd']) :: splitCondAux [] rest
  | 'O' :: 'r' :: rest => acc.reverse :: (['O', 'r']) :: splitCondAux [] rest
  | c :: rest => splitCondAux (c :: acc) rest

/-- `re.split(r'(And|Or)', s)`. -/
def splitCond (s : List Char) : List (List Char) := splitCondAux [] s

/-- `re.split(r'(And)', s)` with the captured separator kept, as used by
`QueryMethodParser._parse_order_by`. -/
def splitAndAux (acc : List Char) : List Char → List (List Char)
  | [] => [acc.reverse]
  | 'A' :: 'n' :: 'd' :: rest => acc.reverse :: (['A', 'n', 'd']) :: splitAndAux [] rest
  | c :: rest => splitAndAux (c :: acc) rest

/-- `re.split(r'(And)', s)`. -/
def splitAnd (s : List Char) : List (List Char) := splitAndAux [] s

/-- Python `s.split('OrderBy')` (all occurrences, leftmost,
non-overlapping). -/
def splitOrderByAux (acc : List Char) : List Char → List (List Char)
  | 'O' :: 'r' :: 'd' :: 'e' :: 'r' :: 'B' :: 'y' :: rest => acc.reverse :: splitOrderByAux [] rest
  | c :: rest => splitOrderByAux (c :: acc) rest
  | [] => [acc.reverse]

/-- Python `s.split('OrderBy')`. -/
def splitOrderBy (s : List Char) : List (List Char) := splitOrderByAux [] s

/-- `QueryMethodParser._parse_conditions` loop body: tokens are the
`re.split(r'(And|Or)', _)` output; `And`/`Or` tokens update the current
connector (uppercased) without emitting a part; empty tokens are
skipped; any other token is parsed as a single condition and tagged
with the *current* connector. -/
def parseConditionsAux (conn : Option (List Char)) :
    List (List Char) → Except PyErr (List QueryPart)
  | [] => .ok []
  | t :: ts =>
    if t = ("And").data ∨ t = ("Or").data then
      parseConditionsAux (some (upperStr t)) ts
    else if t = [] then
      parseConditionsAux conn ts
    else do
      let (f, op) ← parseSingleCondition t
      let rest ← parseConditionsAux conn ts
      .ok (⟨f, op, conn⟩ :: rest)

/-- `QueryMethodParser._parse_conditions`. -/
def parseConditions (s : List Char) : Except PyErr (List QueryPart) :=
  parseConditionsAux none (splitCond s)

/-- `QueryMethodParser._parse_order_by` loop body: skip `And` tokens
and empty tokens; strip a trailing `Desc`/`Asc` (default `ASC`), and
snake-case the field. -/
def parseOrderByAux : List (List Char) → List (List Char × List Char)
  | [] => []
  | t :: ts =>
    if t = ("And").data ∨ t = [] then
      parseOrderByAux ts
    else
      let (field, dir) :=
        if List.isSuffixOf (("Desc").data) t then
          (t.take (t.length - 4), ("DESC").data)
        else if List.isSuffixOf (("Asc").data) t then
          (t.take (t.length - 3), ("ASC").data)
        else
          (t, ("ASC").data)
      (camelToSnake field, dir) :: parseOrderByAux ts

/-- `QueryMethodParser._parse_order_by`. -/
def parseOrderBy (s : List Char) : List (List Char × List Char) :=
  parseOrderByAux (splitAnd s)

/-- `re.match(r'^(find|count|delete|exists)By', name)`: on success
return the `QueryOperation` for group 1 and the remainder after
group 0 (`<prefix>By`). -/
def matchOperation (s : List Char) : Option (QueryOperation × List Char) :=
  if List.isPrefixOf (("findBy").data) s then some (.find, s.drop 6)
  else if List.isPrefixOf (("countBy").data) s then some (.count, s.drop 7)
  else if List.isPrefixOf (("deleteBy").data) s then some (.delete, s.drop 8)
  else if List.isPrefixOf (("existsBy").data) s then some (.exists, s.drop 8)
  else none

/-- `QueryMethodParser.parse`: extract the operation prefix (raising
`ValueError` when absent), split off an `OrderBy` clause when the
substring occurs (Python keeps `split('OrderBy')[0]` and parses
`split('OrderBy')[1]`), then parse the conditions. -/
def parse (methodName : List Char) : Except PyErr ParsedQuery := do
  match matchOperation methodName with
  | none => .error .valueError
  | some (operation, remainder) =>
    let obParts := splitOrderBy remainder
    let (remainder, orderBy) :=
      match obParts with
      | r :: oc :: _ => (r, parseOrderBy oc)
      | _ => (remainder, [])
    let parts ← parseConditions remainder
    .ok ⟨operation, parts, orderBy⟩

/-! ### `SQLQueryGenerator` -/

/-- `SQLQueryGenerator._build_condition`: SQL fragment and bound
parameter names for one `QueryPart`.  The final `raise ValueError`
(reached for `AND`/`OR` operators) is the `.error` case. -/
def buildCondition (p : QueryPart) : Except PyErr (List Char × List (List Char)) :=
  let f := p.field
  match p.operator with
  | .equals => .ok (f ++ (" = ?").data, [f])
  | .greaterThan => .ok (f ++ (" > ?").data, [f])
  | .lessThan => .ok (f ++ (" < ?").data, [f])
  | .greaterThanEqual => .ok (f ++ (" >= ?").data, [f])
  | .lessThanEqual => .ok (f ++ (" <= ?").data, [f])
  | .like => .ok (f ++ (" LIKE ?").data, [f])
  | .containing => .ok (f ++ (" LIKE ?").data, [f])
  | .startingWith => .ok (f ++ (" LIKE ?").data, [f])
  | .endingWith => .ok (f ++ (" LIKE ?").data, [f])
  | .between => .ok (f ++ (" BETWEEN ? AND ?").data, [f, f])
  | .inOp => .ok (f ++ (" IN (?)").data, [f])
  | .isNull => .ok (f ++ (" IS NULL").data, [])
  | .isNotNull => .ok (f ++ (" IS NOT NULL").data, [])
  | .trueC => .ok (f ++ (" = TRUE").data, [])
  | .falseC => .ok (f ++ (" = FALSE").data, [])
  | .notOp => .ok (f ++ (" != ?").data, [f])
  | .andC => .error .valueError
  | .orC => .error .valueError

/-- `SQLQueryGenerator._build_where_clause` loop: accumulate condition
fragments (each part after the first with a truthy connector is
rendered `" CONN cond"`) and extend the parameter list. -/
def buildWhereAux : List QueryPart → List (List Char) → List (List Char) →
    Except PyErr (List (List Char) × List (List Char))
  | [], conds, ps => .ok (conds, ps)
  | p :: rest, conds, ps => do
    let (cond, pp) ← buildCondition p
    let conds' :=
      match p.connector, conds with
      | some conn, _ :: _ => conds ++ [(" ").data ++ conn ++ (" ").data ++ cond]
      | _, _ => conds ++ [cond]
    buildWhereAux rest conds' (ps ++ pp)

/-- `SQLQueryGenerator._build_where_clause`: `''.join(conditions)` plus
the parameter list. -/
def buildWhereClause (parts : List QueryPart) : Except PyErr (List Char × List (List Char)) := do
  let (conds, ps) ← buildWhereAux parts [] []
  .ok (conds.flatten, ps)

/-- Render `ORDER BY` items `f"{field} {direction}"` joined with
`", "`. -/
def orderBySql (obs : List (List Char × List Char)) : List Char :=
  List.intercalate ((", ").data) (obs.map (fun fd => fd.1 ++ (" ").data ++ fd.2))

/-- `SQLQueryGenerator._generate_select`. -/
def generateSelect (table : List Char) (pq : ParsedQuery) :
    Except PyErr (List Char × List (List Char)) := do
  let base := ("SELECT * FROM ").data ++ table
  let (sql, ps) ←
    match pq.parts with
    | [] => Except.ok (base, ([] : List (List Char)))
    | _ => do
      let (w, ps) ← buildWhereClause pq.parts
      Except.ok (base ++ (" WHERE ").data ++ w, ps)
  let sql :=
    match pq.orderBy with
    | [] => sql
    | obs => sql ++ (" ORDER BY ").data ++ orderBySql obs
  .ok (sql, ps)

/-- `SQLQueryGenerator._generate_count`. -/
def generateCount (table : List Char) (pq : ParsedQuery) :
    Except PyErr (List Char × List (List Char)) := do
  let base := ("SELECT COUNT(*) FROM ").data ++ table
  match pq.parts with
  | [] => Except.ok (base, ([] : List (List Char)))
  | _ => do
    let (w, ps) ← buildWhereClause pq.parts
    Except.ok (base ++ (" WHERE ").data ++ w, ps)

/-- `SQLQueryGenerator._generate_delete`. -/
def generateDelete (table : List Char) (pq : ParsedQuery) :
    Except PyErr (List Char × List (List Char)) := do
  let base := ("DELETE FROM ").data ++ table
  match pq.parts with
  | [] => Except.ok (base, ([] : List (List Char)))
  | _ => do
    let (w, ps) ← buildWhereClause pq.parts
    Except.ok (base ++ (" WHERE ").data ++ w, ps)

/-- `SQLQueryGenerator._generate_exists`. -/
def generateExists (table : List Char) (pq : ParsedQuery) :
    Except PyErr (List Char × List (List Char)) := do
  let base := ("SELECT EXISTS(SELECT 1 FROM ").data ++ table
  let (sql, ps) ←
    match pq.parts with
    | [] => Except.ok (base, ([] : List (List Char)))
    | _ => do
      let (w, ps) ← buildWhereClause pq.parts
      Except.ok (base ++ (" WHERE ").data ++ w, ps)
  .ok (sql ++ (")").data, ps)

/-- `SQLQueryGenerator.generate`, with the generator's `table_name`
passed explicitly. -/
def generate (table : List Char) (pq : ParsedQuery) :
    Except PyErr (List Char × List (List Char)) :=
  match pq.operation with
  | .find => generateSelect table pq
  | .count => generateCount table pq
  | .delete => generateDelete table pq
  | .exists => generateExists table pq

/-- Parse a method name and generate its SQL against a table, the
composition used by `StarRepository._create_query_method`. -/
def parseAndGenerate (table methodName : List Char) :
    Except PyErr (List Char × List (List Char)) := do
  let pq ← parse methodName
  generate table pq

/-! ### `StarRepository` derived-method dispatch (`repository.py`) -/

/-- `StarRepository._snake_to_camel_method`:
`parts = snake_name.split('_'); parts[0] + ''.join(w.capitalize() for w in parts[1:])`. -/
def splitUnderscoreAux (acc : List Char) : List Char → List (List Char)
  | [] => [acc.reverse]
  | c :: rest =>
    if c = '_' then acc.reverse :: splitUnderscoreAux [] rest
    else splitUnderscoreAux (c :: acc) rest

/-- Python `s.split('_')`. -/
def splitUnderscore (s : List Char) : List (List Char) := splitUnderscoreAux [] s

/-- Python `str.capitalize`: first character uppercased, the rest
lowercased (ASCII). -/
def capitalizeWord : List Char → List Char
  | [] => []
  | c :: cs => upChar c :: cs.map lowChar

/-- `StarRepository._snake_to_camel_method`. -/
def snakeToCamelMethod (s : List Char) : List Char :=
  match splitUnderscore s with
  | [] => []
  | p :: ps => p ++ (ps.map capitalizeWord).flatten

/-- Events observable while `StarRepository` dispatches a derived query
method: one `parseInvoked` per `QueryMethodParser.parse` call, then the
compiled SQL or a failure. -/
inductive CompileEvent where
  | parseInvoked (name : List Char)
  | generated (sql : List Char) (ps : List (List Char))
  | compileFailed
deriving DecidableEq, Repr

/-- `StarRepository._create_query_method`, compilation portion: calls
`QueryMethodParser().parse(method_name)` (always, once per call) and on
success `SQLQueryGenerator(table_name).generate(parsed_query)`.  The
trace records the parser invocation and the outcome. -/
def createQueryMethod (table name : List Char) :
    List CompileEvent × Option (List Char × List (List Char)) :=
  match parseAndGenerate table name with
  | .ok (sql, ps) => ([.parseInvoked name, .generated sql ps], some (sql, ps))
  | .error _ => ([.parseInvoked name, .compileFailed], none)

/-- `StarRepository.__getattribute__` on derived method names: every
access of a `findBy*`/`countBy*`/`deleteBy*`/`existsBy*` attribute
returns `self._create_query_method(name)` freshly — the instance stores
no compiled-query cache (its only attributes are `entity_class` and
`_gateway_instance`), so each access in the list re-runs the parser and
the generator.  The result is the concatenated trace of all accesses. -/
def repoAccessTrace (table : List Char) (accesses : List (List Char)) : List CompileEvent :=
  (accesses.map (fun n => (createQueryMethod table n).1)).flatten

/-- Number of `QueryMethodParser.parse` invocations in a dispatch
trace. -/
def parseInvocations (tr : List CompileEvent) : Nat :=
  tr.countP (fun e => match e with | .parseInvoked _ => true | _ => false)

/-! ### `SQLAlchemyGateway` transaction state machine (`orm_gateway.py`)

The gateway is embedded as explicit state: the `_transaction_stack`
(list head = top of stack), the backend session's
`in_transaction()` flag, and an observable event log.  The behaviour of
the SQLAlchemy session objects is modelled minimally and faithfully to
their documented semantics: `session.begin()` opens a real transaction
(`in_transaction()` becomes true); `session.begin_nested()` opens a
savepoint inside the open transaction; committing/rolling back a `Root`
frame ends the transaction, while releasing/rolling back a `Nested`
savepoint leaves the enclosing transaction open; a direct
`session.commit()`/`session.rollback()` ends any open transaction. -/

/-- A `_transaction_stack` entry: the root `session.begin()` transaction
or a `session.begin_nested()` savepoint. -/
inductive TxnFrame where
  | root
  | nested
deriving DecidableEq, Repr

/-- Observable gateway events. -/
inductive GwEvent where
  | beganRoot
  | beganNested
  | frameCommitted (f : TxnFrame)
  | frameRolledBack (f : TxnFrame)
  | sessionCommitted
  | sessionRolledBack
  | wroteSave
  | wroteDelete
  | wroteUpdate
deriving DecidableEq, Repr

/-- `SQLAlchemyGateway` state: `_transaction_stack` (head = top),
`session.in_transaction()`, and the event log. -/
structure GatewayState where
  stack : List TxnFrame
  sessionInTxn : Bool
  log : List GwEvent
deriving DecidableEq, Repr

/-- A fresh gateway (`__init__`): empty `_transaction_stack`, session
not in a transaction, nothing logged. -/
def initGateway : GatewayState := ⟨[], false, []⟩

namespace SQLAlchemyGateway

/-- `begin_transaction`: if `not self.session.in_transaction()`, push a
root frame (a real `session.begin()`); else push a nested frame
(`session.begin_nested()`, a SAVEPOINT). -/
def beginTransaction (s : GatewayState) : GatewayState :=
  if s.sessionInTxn then
    { s with stack := .nested :: s.stack, log := s.log ++ [.beganNested] }
  else
    { stack := .root :: s.stack, sessionInTxn := true, log := s.log ++ [.beganRoot] }

/-- `commit`: if the stack is non-empty, pop the top frame and commit
it (`txn.commit()`: full commit for root, savepoint release for
nested); else fall back to a direct `session.commit()`. -/
def commit (s : GatewayState) : GatewayState :=
  match s.stack with
  | f :: rest =>
    { stack := rest,
      sessionInTxn := if f = .root then false else s.sessionInTxn,
      log := s.log ++ [.frameCommitted f] }
  | [] => { s with sessionInTxn := false, log := s.log ++ [.sessionCommitted] }

/-- `rollback`: if the stack is non-empty, pop the top frame and roll
it back (`txn.rollback()`); else fall back to a direct
`session.rollback()`. -/
def rollback (s : GatewayState) : GatewayState :=
  match s.stack with
  | f :: rest =>
    { stack := rest,
      sessionInTxn := if f = .root then false else s.sessionInTxn,
      log := s.log ++ [.frameRolledBack f] }
  | [] => { s with sessionInTxn := false, log := s.log ++ [.sessionRolledBack] }

/-- `_auto_commit`: `session.commit()` only when `_transaction_stack`
is empty **and** `not session.in_transaction()`; otherwise do
nothing. -/
def autoCommit (s : GatewayState) : GatewayState :=
  if s.stack = [] ∧ s.sessionInTxn = false then
    { s with sessionInTxn := false, log := s.log ++ [.sessionCommitted] }
  else
    s

/-- `save`: the session-level write (`add`/`flush`/`refresh`), then
`_auto_commit`. -/
def save (s : GatewayState) : GatewayState :=
  autoCommit { s with log := s.log ++ [.wroteSave] }

/-- `delete`: `session.delete`, then `_auto_commit`. -/
def delete (s : GatewayState) : GatewayState :=
  autoCommit { s with log := s.log ++ [.wroteDelete] }

/-- `update`: `session.merge`/`flush`, then `_auto_commit`. -/
def update (s : GatewayState) : GatewayState :=
  autoCommit { s with log := s.log ++ [.wroteUpdate] }

end SQLAlchemyGateway

/-- Number of commit actions (frame commits or direct session commits)
in a gateway log. -/
def commitActions (log : List GwEvent) : Nat :=
  log.countP (fun e =>
    match e with
    | .frameCommitted _ => true
    | .sessionCommitted => true
    | _ => false)

/-- The `Transactional` decorator body (both `async_wrapper` and
`sync_wrapper` have the identical shape): `begin_transaction()`, invoke
the wrapped unit of work, on normal return `commit()` and pass the
result through, on a raised exception `rollback()` and re-raise that
same exception. -/
def transactionalRun {ε α : Type} (body : GatewayState → GatewayState × Except ε α)
    (s : GatewayState) : GatewayState × Except ε α :=
  match body (SQLAlchemyGateway.beginTransaction s) with
  | (s2, .ok r) => (SQLAlchemyGateway.commit s2, .ok r)
  | (s2, .error e) => (SQLAlchemyGateway.rollback s2, .error e)

/-! ### Supporting lemmas -/

/-- Each `_create_query_method` run invokes the parser exactly once. -/
theorem parseInvocations_createQueryMethod (t n : List Char) :
    parseInvocations (createQueryMethod t n).1 = 1 := by
  unfold createQueryMethod
  cases h : parseAndGenerate t n with
  | ok v =>
    obtain ⟨sql, ps⟩ := v
    simp [parseInvocations, List.countP_cons, List.countP_nil]
  | error e =>
    simp [parseInvocations, List.countP_cons, List.countP_nil]

/-! ### Claim theorems -/

/-- C1: the claim says `parse` succeeds on `<prefix>By<Field><Operator>`
for every operator suffix in the grammar.  The code instead raises
`KeyError` for six of the operator suffixes (`GreaterThanEqual`,
`LessThanEqual`, `StartingWith`, `EndingWith`, `IsNull`, `IsNotNull`),
because `_parse_single_condition` looks the enum member up by
`op_name.upper().replace('THAN', '_THAN')` — e.g. `GREATER_THANEQUAL`,
which is not a `QueryCondition` member name.  The last conjunct shows
the neighbouring operator `GreaterThan` does parse, evidencing that the
enum-name transformation only works for `GreaterThan`/`LessThan`. -/
theorem c1_parse_keyError_on_six_operators :
    parse (("findByAgeGreaterThanEqual").data) = .error .keyError ∧
    parse (("findByAgeLessThanEqual").data) = .error .keyError ∧
    parse (("findByAgeStartingWith").data) = .error .keyError ∧
    parse (("findByAgeEndingWith").data) = .error .keyError ∧
    parse (("findByAgeIsNull").data) = .error .keyError ∧
    parse (("findByAgeIsNotNull").data) = .error .keyError ∧
    parse (("findByAgeGreaterThan").data)
      = .ok ⟨.find, [⟨("age").data, .greaterThan, none⟩], []⟩ := by
  decide

/-- C2 counterexample: the bare `Active` atom parses as an `EQUALS`
condition, so the generated WHERE clause is `age > ? AND active = ?`
with `paramOrder = ["age", "active"]` — not `active = TRUE` with
`paramOrder = ["age"]` as claimed. -/
theorem c2_counterexample :
    parseAndGenerate (("users").data)
        (("findByAgeGreaterThanAndActiveOrderByNameDesc").data)
      = .ok ((("SELECT * FROM users WHERE age > ? AND active = ? ORDER BY name DESC").data),
             [("age").data, ("active").data]) ∧
    [("age").data, ("active").data] ≠ [("age").data] := by
  decide

/-- C2 (amended): `parse("findByAgeGreaterThanAndActiveOrderByNameDesc")`
treats the bare `Active` atom as an `EQUALS` condition on field
`active`, and `generate` on table `users` yields
`SELECT * FROM users WHERE age > ? AND active = ? ORDER BY name DESC`
with `paramOrder = ["age", "active"]`. -/
theorem c2_amended_bare_atom_is_equals :
    parse (("findByAgeGreaterThanAndActiveOrderByNameDesc").data)
      = .ok ⟨.find,
             [⟨("age").data, .greaterThan, none⟩,
              ⟨("active").data, .equals, some (("AND").data)⟩],
             [((("name").data), (("DESC").data))]⟩ ∧
    parseAndGenerate (("users").data)
        (("findByAgeGreaterThanAndActiveOrderByNameDesc").data)
      = .ok ((("SELECT * FROM users WHERE age > ? AND active = ? ORDER BY name DESC").data),
             [("age").data, ("active").data]) := by
  decide

/-- C3 counterexample: two accesses of the same derived method name on
one repository invoke the parser twice — contradicting "parsed and its
SQL generated at most once per name". -/
theorem c3_counterexample :
    parseInvocations (repoAccessTrace (("users").data)
        [("findByEmail").data, ("findByEmail").data]) = 2 ∧
    ¬ parseInvocations (repoAccessTrace (("users").data)
        [("findByEmail").data, ("findByEmail").data]) ≤ 1 := by
  decide

/-- C3 (amended): `StarRepository.__getattribute__` keeps no cache:
every access of a derived method name re-runs
`_create_query_method`, so the parser is invoked exactly once per
access — `accesses.length` times in total, not at most once per
distinct name. -/
theorem c3_amended_reparse_every_access :
    ∀ (table : List Char) (accesses : List (List Char)),
      parseInvocations (repoAccessTrace table accesses) = accesses.length := by
  intro table accesses
  induction accesses with
  | nil => simp [repoAccessTrace, parseInvocations]
  | cons a as ih =>
    have h1 : repoAccessTrace table (a :: as)
        = (createQueryMethod table a).1 ++ repoAccessTrace table as := by
      simp [repoAccessTrace]
    rw [h1]
    simp only [parseInvocations, List.countP_append] at *
    rw [ih]
    have h2 := parseInvocations_createQueryMethod table a
    simp only [parseInvocations] at h2
    rw [h2]
    simp [Nat.add_comm]

/-- C4 counterexample: `parse("findBy")` does **not** fail — it returns
a `ParsedQuery` with operation `find` and an empty parts list. -/
theorem c4_counterexample :
    parse (("findBy").data) = .ok ⟨.find, [], []⟩ := by
  decide

/-- C4 (amended): for every operation prefix, `parse` accepts the
empty-condition name `<prefix>By`, returning a `ParsedQuery` with an
empty parts list (and empty order-by) instead of raising a syntax
error. -/
theorem c4_amended_emptyBy_accepted :
    parse (("findBy").data) = .ok ⟨.find, [], []⟩ ∧
    parse (("countBy").data) = .ok ⟨.count, [], []⟩ ∧
    parse (("deleteBy").data) = .ok ⟨.delete, [], []⟩ ∧
    parse (("existsBy").data) = .ok ⟨.exists, [], []⟩ := by
  decide

/-- C5: the transaction stack is strict LIFO: `begin_transaction`
pushes exactly one frame; `commit`/`rollback` on a non-empty stack pop
exactly the top frame, leaving the frames below untouched; the trace
`begin; begin; commit; commit` ends with zero open frames and
`begin; begin; rollback` ends with exactly the outer root frame
open. -/
theorem c5_transaction_stack_lifo :
    (∀ s : GatewayState,
      (SQLAlchemyGateway.beginTransaction s).stack.length = s.stack.length + 1) ∧
    (∀ (s : GatewayState) (f : TxnFrame) (rest : List TxnFrame),
      s.stack = f :: rest →
        (SQLAlchemyGateway.commit s).stack = rest ∧
        (SQLAlchemyGateway.rollback s).stack = rest) ∧
    (SQLAlchemyGateway.commit (SQLAlchemyGateway.commit
      (SQLAlchemyGateway.beginTransaction
        (SQLAlchemyGateway.beginTransaction initGateway)))).stack = [] ∧
    (SQLAlchemyGateway.rollback
      (SQLAlchemyGateway.beginTransaction
        (SQLAlchemyGateway.beginTransaction initGateway))).stack = [.root] := by
  refine ⟨?_, ?_, by decide, by decide⟩
  · intro s
    by_cases h : s.sessionInTxn <;>
      simp [SQLAlchemyGateway.beginTransaction, h]
  · intro s f rest h
    obtain ⟨st, tx, lg⟩ := s
    simp only at h
    subst h
    simp [SQLAlchemyGateway.commit, SQLAlchemyGateway.rollback]

/-- C5 witness: the LIFO facts instantiated at a concrete state. -/
theorem c5_transaction_stack_lifo_witness :
    (SQLAlchemyGateway.beginTransaction initGateway).stack.length
        = initGateway.stack.length + 1 ∧
    (SQLAlchemyGateway.commit (SQLAlchemyGateway.beginTransaction initGateway)).stack = [] ∧
    (SQLAlchemyGateway.rollback (SQLAlchemyGateway.beginTransaction initGateway)).stack = [] :=
  ⟨c5_transaction_stack_lifo.1 initGateway,
   c5_transaction_stack_lifo.2.1 (SQLAlchemyGateway.beginTransaction initGateway)
     .root [] (by decide)⟩

/-- C6: the `Transactional` wrapper begins a transaction, invokes the
unit of work on the state after `begin_transaction`, then on a normal
return commits and passes the result through unchanged, and on a raised
exception rolls back and re-raises the identical exception. -/
theorem c6_transactional_boundary :
    ∀ {ε α : Type} (body : GatewayState → GatewayState × Except ε α) (s : GatewayState),
      (∀ (s2 : GatewayState) (r : α),
        body (SQLAlchemyGateway.beginTransaction s) = (s2, .ok r) →
          transactionalRun body s = (SQLAlchemyGateway.commit s2, .ok r)) ∧
      (∀ (s2 : GatewayState) (e : ε),
        body (SQLAlchemyGateway.beginTransaction s) = (s2, .error e) →
          transactionalRun body s = (SQLAlchemyGateway.rollback s2, .error e)) := by
  intro ε α body s
  constructor
  · intro s2 r h
    simp [transactionalRun, h]
  · intro s2 e h
    simp [transactionalRun, h]

/-- C6 witness: the wrapper applied to a concrete succeeding and a
concrete failing unit of work. -/
theorem c6_transactional_boundary_witness :
    transactionalRun (fun st => (st, (Except.ok 42 : Except Nat Nat))) initGateway
        = (SQLAlchemyGateway.commit (SQLAlchemyGateway.beginTransaction initGateway),
           Except.ok 42) ∧
    transactionalRun (fun st => (st, (Except.error 7 : Except Nat Nat))) initGateway
        = (SQLAlchemyGateway.rollback (SQLAlchemyGateway.beginTransaction initGateway),
           Except.error 7) :=
  ⟨(c6_transactional_boundary
      (fun st => (st, (Except.ok 42 : Except Nat Nat))) initGateway).1 _ 42 rfl,
   (c6_transactional_boundary
      (fun st => (st, (Except.error 7 : Except Nat Nat))) initGateway).2 _ 7 rfl⟩

/-- C7: whenever a transaction frame is open (`_transaction_stack`
non-empty), the write operations `save`, `delete`, `update` perform no
commit at all: the number of commit actions in the log is unchanged. -/
theorem c7_writes_no_commit_in_open_frame :
    ∀ s : GatewayState, s.stack ≠ [] →
      commitActions (SQLAlchemyGateway.save s).log = commitActions s.log ∧
      commitActions (SQLAlchemyGateway.delete s).log = commitActions s.log ∧
      commitActions (SQLAlchemyGateway.update s).log = commitActions s.log := by
  intro s h
  refine ⟨?_, ?_, ?_⟩ <;>
    simp [SQLAlchemyGateway.save, SQLAlchemyGateway.delete, SQLAlchemyGateway.update,
      SQLAlchemyGateway.autoCommit, h, commitActions, List.countP_append,
      List.countP_cons, List.countP_nil]

/-- C7 witness: no commit happens for writes inside one open frame. -/
theorem c7_writes_no_commit_in_open_frame_witness :
    commitActions (SQLAlchemyGateway.save
        (SQLAlchemyGateway.beginTransaction initGateway)).log
      = commitActions (SQLAlchemyGateway.beginTransaction initGateway).log ∧
    commitActions (SQLAlchemyGateway.delete
        (SQLAlchemyGateway.beginTransaction initGateway)).log
      = commitActions (SQLAlchemyGateway.beginTransaction initGateway).log ∧
    commitActions (SQLAlchemyGateway.update
        (SQLAlchemyGateway.beginTransaction initGateway)).log
      = commitActions (SQLAlchemyGateway.beginTransaction initGateway).log :=
  c7_writes_no_commit_in_open_frame (SQLAlchemyGateway.beginTransaction initGateway)
    (by decide)

/-- C9: `commit`/`rollback` on an empty transaction stack do not fail:
they fall back to a direct session-level commit/rollback and leave the
stack empty. -/
theorem c9_empty_stack_fallback :
    ∀ s : GatewayState, s.stack = [] →
      (SQLAlchemyGateway.commit s).stack = [] ∧
      (SQLAlchemyGateway.commit s).log = s.log ++ [.sessionCommitted] ∧
      (SQLAlchemyGateway.rollback s).stack = [] ∧
      (SQLAlchemyGateway.rollback s).log = s.log ++ [.sessionRolledBack] := by
  intro s h
  obtain ⟨st, tx, lg⟩ := s
  simp only at h
  subst h
  simp [SQLAlchemyGateway.commit, SQLAlchemyGateway.rollback]

/-- C9 witness: the fallback at the initial (empty-stack) state. -/
theorem c9_empty_stack_fallback_witness :
    (SQLAlchemyGateway.commit initGateway).stack = [] ∧
    (SQLAlchemyGateway.commit initGateway).log = initGateway.log ++ [.sessionCommitted] ∧
    (SQLAlchemyGateway.rollback initGateway).stack = [] ∧
    (SQLAlchemyGateway.rollback initGateway).log = initGateway.log ++ [.sessionRolledBack] :=
  c9_empty_stack_fallback initGateway (by decide)

/-- C8: `generate(parse("findByEmail"), "users")` is exactly
`("SELECT * FROM users WHERE email = ?", ["email"])`: the bare field
atom is an `EQUALS` condition, the field is snake_cased, and the single
bound field appears in `paramOrder`. -/
theorem c8_findByEmail_select :
    parse (("findByEmail").data)
      = .ok ⟨.find, [⟨("email").data, .equals, none⟩], []⟩ ∧
    parseAndGenerate (("users").data) (("findByEmail").data)
      = .ok ((("SELECT * FROM users WHERE email = ?").data), [("email").data]) := by
  decide

/-! ### Casing round-trip (C10): definitions and character lemmas -/

/-- The camelCase field segment the repository normalization produces
for a snake_case field: each word capitalized, concatenated
(the `''.join(word.capitalize() ...)` part of
`_snake_to_camel_method`). -/
def camelAll (ws : List (List Char)) : List Char :=
  (ws.map capitalizeWord).flatten

/-- Words joined with single underscores (the shape of a snake_case
field segment). -/
def joinUnderscore : List (List Char) → List Char
  | [] => []
  | [w] => w
  | w :: rest => w ++ '_' :: joinUnderscore rest

/-- The output shape of the first `_camel_to_snake` regex pass on a
capitalized-words string: an underscore lands before every second word
boundary, alternating (the pass consumes the matched lowercase run, so
it cannot match again at the very next boundary).  `b` records whether
the next boundary gets an underscore. -/
def altOut : Bool → List (List Char) → List Char
  | _, [] => []
  | b, w :: rest => (if b then ['_'] else []) ++ capitalizeWord w ++ altOut (!b) rest

/-- The fully-underscored continuation after the first word, the output
shape of the second regex pass. -/
def sepAll : List (List Char) → List Char
  | [] => []
  | w :: rest => '_' :: capitalizeWord w ++ sepAll rest

/-- All characters are ASCII lowercase letters. -/
def allLowP (l : List Char) : Prop := ∀ c ∈ l, isLowB c = true

instance (l : List Char) : Decidable (allLowP l) := by
  unfold allLowP
  infer_instance

/-- A word that round-trips: at least two characters, all ASCII
lowercase letters. -/
def GoodWord (w : List Char) : Prop := 2 ≤ w.length ∧ allLowP w

instance (w : List Char) : Decidable (GoodWord w) := by
  unfold GoodWord
  infer_instance

/-- Characters are equal when their code points are. -/
theorem char_eq_of_toNat_eq {c d : Char} (h : c.toNat = d.toNat) : c = d :=
  Char.eq_of_val_eq (UInt32.ext h)

/-- Uppercasing a lowercase ASCII letter yields an uppercase letter,
and lowercasing it again restores the original. -/
theorem upChar_facts (c : Char) (h : isLowB c = true) :
    isUpB (upChar c) = true ∧ lowChar (upChar c) = c := by
  simp only [isLowB, decide_eq_true_eq] at h
  obtain ⟨h1, h2⟩ := h
  set n := c.toNat with hn
  interval_cases n <;>
    first
      | (have hc : c = 'a' := char_eq_of_toNat_eq (by rw [← hn]; decide); subst hc; decide)
      | (have hc : c = 'b' := char_eq_of_toNat_eq (by rw [← hn]; decide); subst hc; decide)
      | (have hc : c = 'c' := char_eq_of_toNat_eq (by rw [← hn]; decide); subst hc; decide)
      | (have hc : c = 'd' := char_eq_of_toNat_eq (by rw [← hn]; decide); subst hc; decide)
      | (have hc : c = 'e' := char_eq_of_toNat_eq (by rw [← hn]; decide); subst hc; decide)
      | (have hc : c = 'f' := char_eq_of_toNat_eq (by rw [← hn]; decide); subst hc; decide)
      | (have hc : c = 'g' := char_eq_of_toNat_eq (by rw [← hn]; decide); subst hc; decide)
      | (have hc : c = 'h' := char_eq_of_toNat_eq (by rw [← hn]; decide); subst hc; decide)
      | (have hc : c = 'i' := char_eq_of_toNat_eq (by rw [← hn]; decide); subst hc; decide)
      | (have hc : c = 'j' := char_eq_of_toNat_eq (by rw [← hn]; decide); subst hc; decide)
      | (have hc : c = 'k' := char_eq_of_toNat_eq (by rw [← hn]; decide); subst hc; decide)
      | (have hc : c = 'l' := char_eq_of_toNat_eq (by rw [← hn]; decide); subst hc; decide)
      | (have hc : c = 'm' := char_eq_of_toNat_eq (by rw [← hn]; decide); subst hc; decide)
      | (have hc : c = 'n' := char_eq_of_toNat_eq (by rw [← hn]; decide); subst hc; decide)
      | (have hc : c = 'o' := char_eq_of_toNat_eq (by rw [← hn]; decide); subst hc; decide)
      | (have hc : c = 'p' := char_eq_of_toNat_eq (by rw [← hn]; decide); subst hc; decide)
      | (have hc : c = 'q' := char_eq_of_toNat_eq (by rw [← hn]; decide); subst hc; decide)
      | (have hc : c = 'r' := char_eq_of_toNat_eq (by rw [← hn]; decide); subst hc; decide)
      | (have hc : c = 's' := char_eq_of_toNat_eq (by rw [← hn]; decide); subst hc; decide)
      | (have hc : c = 't' := char_eq_of_toNat_eq (by rw [← hn]; decide); subst hc; decide)
      | (have hc : c = 'u' := char_eq_of_toNat_eq (by rw [← hn]; decide); subst hc; decide)
      | (have hc : c = 'v' := char_eq_of_toNat_eq (by rw [← hn]; decide); subst hc; decide)
      | (have hc : c = 'w' := char_eq_of_toNat_eq (by rw [← hn]; decide); subst hc; decide)
      | (have hc : c = 'x' := char_eq_of_toNat_eq (by rw [← hn]; decide); subst hc; decide)
      | (have hc : c = 'y' := char_eq_of_toNat_eq (by rw [← hn]; decide); subst hc; decide)
      | (have hc : c = 'z' := char_eq_of_toNat_eq (by rw [← hn]; decide); subst hc; decide)

/-- `lowChar` fixes lowercase letters. -/
theorem lowChar_low_id (c : Char) (h : isLowB c = true) : lowChar c = c := by
  simp only [isLowB, decide_eq_true_eq] at h
  unfold lowChar
  rw [if_neg]
  omega

/-- Lowercase letters are not uppercase. -/
theorem low_not_up (c : Char) (h : isLowB c = true) : isUpB c = false := by
  simp only [isLowB, decide_eq_true_eq] at h
  simp only [isUpB, decide_eq_false_iff_not]
  omega

/-- Uppercase letters are neither lowercase nor digits. -/
theorem up_not_lowdig (c : Char) (h : isUpB c = true) :
    (isLowB c || isDigB c) = false := by
  simp only [isUpB, decide_eq_true_eq] at h
  simp only [isLowB, isDigB, Bool.or_eq_false_iff, decide_eq_false_iff_not]
  omega

/-- Lowercase letters are not the underscore. -/
theorem low_ne_underscore (c : Char) (h : isLowB c = true) : c ≠ '_' := by
  intro heq
  subst heq
  simp [isLowB] at h

/-- `map lowChar` fixes all-lowercase strings. -/
theorem map_lowChar_id (l : List Char) (h : allLowP l) : l.map lowChar = l := by
  induction l with
  | nil => rfl
  | cons a l ih =>
    have ha : isLowB a = true := h a (by simp)
    simp only [List.map_cons, lowChar_low_id a ha, ih (fun c hc => h c (by simp [hc]))]

/-- `capitalizeWord` on an all-lowercase word: uppercase head, tail
unchanged. -/
theorem capitalizeWord_low (c : Char) (cs : List Char) (h : allLowP (c :: cs)) :
    capitalizeWord (c :: cs) = upChar c :: cs := by
  simp only [capitalizeWord, map_lowChar_id cs (fun d hd => h d (by simp [hd]))]

/-- Lowercasing the capitalization of an all-lowercase word restores
the word. -/
theorem lowerStr_capitalizeWord (w : List Char) (h : allLowP w) :
    lowerStr (capitalizeWord w) = w := by
  match w with
  | [] => rfl
  | c :: cs =>
    rw [capitalizeWord_low c cs h]
    have hc : isLowB c = true := h c (by simp)
    simp only [lowerStr, List.map_cons, (upChar_facts c hc).2,
      map_lowChar_id cs (fun d hd => h d (by simp [hd]))]

/-- Uppercase letters are not lowercase. -/
theorem up_not_low (c : Char) (h : isUpB c = true) : isLowB c = false := by
  simp only [isUpB, decide_eq_true_eq] at h
  simp only [isLowB, decide_eq_false_iff_not]
  omega

/-- In run mode the first pass copies a lowercase run unchanged and
continues after it. -/
theorem sub1A_true_append (l X : List Char) (h : allLowP l) :
    sub1A true (l ++ X) = l ++ sub1A true X := by
  induction l with
  | nil => simp
  | cons a l ih =>
    have ha : isLowB a = true := h a (by simp)
    have hl : allLowP l := fun c hc => h c (by simp [hc])
    cases hlx : l ++ X with
    | nil =>
      obtain ⟨hl0, hX⟩ := List.append_eq_nil.mp hlx
      subst hl0
      subst hX
      simp [sub1A]
    | cons y ys =>
      have : sub1A true (a :: l ++ X) = a :: sub1A true (l ++ X) := by
        rw [List.cons_append, hlx]
        simp only [sub1A, ha, Bool.and_self, if_pos]
      rw [this, ih hl]
      simp

/-- The first pass leaves an all-lowercase string unchanged (normal
mode). -/
theorem sub1A_false_low (l : List Char) (h : allLowP l) :
    sub1A false l = l := by
  induction l with
  | nil => rfl
  | cons a l ih =>
    cases l with
    | nil => rfl
    | cons a' l' =>
      have ha' : isLowB a' = true := h a' (by simp)
      have hstep : sub1A false (a :: a' :: l') = a :: sub1A false (a' :: l') := by
        simp only [sub1A, Bool.false_and, low_not_up a' ha', Bool.false_and, if_neg,
          Bool.false_eq_true, not_false_iff]
      rw [hstep, ih (fun c hc => h c (by simp [hc]))]

/-- Core structure of the first `_camel_to_snake` pass on a string of
capitalized good words: underscores land at alternating boundaries
(the pass consumes each matched lowercase run). -/
theorem sub1A_main : ∀ (n : Nat) (ws : List (List Char)), ws.length ≤ n →
    (∀ w ∈ ws, GoodWord w) →
    (∀ l, l ≠ [] → allLowP l →
      sub1A false (l ++ camelAll ws) = l ++ altOut true ws) ∧
    sub1A true (camelAll ws) = altOut false ws := by
  intro n
  induction n with
  | zero =>
    intro ws hlen _
    have hws : ws = [] := by cases ws <;> simp_all
    subst hws
    exact ⟨fun l _ hl => by simp [camelAll, altOut, sub1A_false_low l hl],
      by simp [camelAll, altOut, sub1A]⟩
  | succ n ih =>
    intro ws hlen hg
    cases ws with
    | nil =>
      exact ⟨fun l _ hl => by simp [camelAll, altOut, sub1A_false_low l hl],
        by simp [camelAll, altOut, sub1A]⟩
    | cons w rest =>
      obtain ⟨hlen2, hlow⟩ := hg w (by simp)
      obtain ⟨c, d, cs, rfl⟩ : ∃ c d cs, w = c :: d :: cs := by
        match w, hlen2 with
        | c :: d :: cs, _ => exact ⟨c, d, cs, rfl⟩
      have hc : isLowB c = true := hlow c (by simp)
      have hd : isLowB d = true := hlow d (by simp)
      have hdcs : allLowP (d :: cs) := fun x hx => hlow x (by simp [hx])
      have hcap : capitalizeWord (c :: d :: cs) = upChar c :: d :: cs :=
        capitalizeWord_low c (d :: cs) hlow
      have hup : isUpB (upChar c) = true := (upChar_facts c hc).1
      have hrest : ∀ w ∈ rest, GoodWord w := fun x hx => hg x (by simp [hx])
      have hihrest := ih rest (by simp at hlen; omega) hrest
      have hcam : camelAll ((c :: d :: cs) :: rest)
          = upChar c :: d :: (cs ++ camelAll rest) := by
        simp [camelAll, hcap]
      have haltF : altOut false ((c :: d :: cs) :: rest)
          = upChar c :: d :: cs ++ altOut true rest := by
        simp [altOut, hcap]
      have haltT : altOut true ((c :: d :: cs) :: rest)
          = '_' :: upChar c :: d :: cs ++ altOut false rest := by
        simp [altOut, hcap]
      constructor
      · intro l
        induction l with
        | nil => intro hne _; exact absurd rfl hne
        | cons a l' ihl =>
          intro _ hlowl
          have ha : isLowB a = true := hlowl a (by simp)
          cases l' with
          | nil =>
            rw [hcam, haltT]
            have e0 : [a] ++ (upChar c :: d :: (cs ++ camelAll rest))
                = a :: upChar c :: (d :: (cs ++ camelAll rest)) := by simp
            rw [e0]
            have e1 : sub1A false (a :: upChar c :: (d :: (cs ++ camelAll rest)))
                = a :: '_' :: upChar c :: sub1A true (d :: (cs ++ camelAll rest)) := by
              simp [sub1A, hup, headLowB, hd]
            rw [e1]
            have e2 : d :: (cs ++ camelAll rest) = (d :: cs) ++ camelAll rest := by simp
            rw [e2, sub1A_true_append (d :: cs) (camelAll rest) hdcs, hihrest.2]
            simp
          | cons a' l'' =>
            have ha' : isLowB a' = true := hlowl a' (by simp)
            have e1 : sub1A false ((a :: a' :: l'') ++ camelAll ((c :: d :: cs) :: rest))
                = a :: sub1A false ((a' :: l'') ++ camelAll ((c :: d :: cs) :: rest)) := by
              simp [sub1A, low_not_up a' ha']
            rw [e1, ihl (by simp) (fun x hx => hlowl x (by simp [hx]))]
            simp
      · rw [hcam, haltF]
        have e1 : sub1A true (upChar c :: d :: (cs ++ camelAll rest))
            = upChar c :: sub1A false (d :: (cs ++ camelAll rest)) := by
          simp [sub1A, up_not_low (upChar c) hup, low_not_up d hd]
        rw [e1]
        have e2 : d :: (cs ++ camelAll rest) = (d :: cs) ++ camelAll rest := by simp
        rw [e2, hihrest.1 (d :: cs) (by simp) hdcs]
        simp

/-- The second pass copies a head character that is neither lowercase
nor a digit. -/
theorem sub2_cons_notld (c : Char) (xs : List Char)
    (h : (isLowB c || isDigB c) = false) :
    sub2 (c :: xs) = c :: sub2 xs := by
  cases xs with
  | nil => rfl
  | cons y ys => simp [sub2, h]

/-- The second pass copies a lowercase run when what follows does not
start with an uppercase letter. -/
theorem sub2_low_run (l xs : List Char) (h : allLowP l)
    (hx : ∀ x ∈ xs.head?, isUpB x = false) :
    sub2 (l ++ xs) = l ++ sub2 xs := by
  induction l with
  | nil => simp
  | cons a l' ih =>
    have ha : isLowB a = true := h a (by simp)
    cases l' with
    | nil =>
      cases xs with
      | nil => rfl
      | cons y ys =>
        have hy : isUpB y = false := hx y (by simp)
        simp [sub2, hy]
    | cons a' l'' =>
      have ha' : isLowB a' = true := h a' (by simp)
      have e1 : sub2 (a :: a' :: (l'' ++ xs)) = a :: sub2 (a' :: (l'' ++ xs)) := by
        simp [sub2, low_not_up a' ha']
      simp only [List.cons_append] at *
      rw [e1, ih (fun x hxm => h x (by simp [hxm]))]

/-- The second pass inserts an underscore between a lowercase run and a
following uppercase letter. -/
theorem sub2_boundary (l : List Char) (u : Char) (ys : List Char)
    (h : allLowP l) (hne : l ≠ []) (hu : isUpB u = true) :
    sub2 (l ++ u :: ys) = l ++ '_' :: u :: sub2 ys := by
  induction l with
  | nil => exact absurd rfl hne
  | cons a l' ih =>
    have ha : isLowB a = true := h a (by simp)
    cases l' with
    | nil => simp [sub2, ha, hu]
    | cons a' l'' =>
      have ha' : isLowB a' = true := h a' (by simp)
      have e1 : sub2 (a :: a' :: (l'' ++ u :: ys)) = a :: sub2 (a' :: (l'' ++ u :: ys)) := by
        simp [sub2, low_not_up a' ha']
      simp only [List.cons_append] at *
      rw [e1, ih (fun x hxm => h x (by simp [hxm])) (by simp)]

/-- Core structure of the second `_camel_to_snake` pass: after a
lowercase run, it turns the alternating output of the first pass into
the fully underscore-separated form. -/
theorem sub2_main : ∀ (ws : List (List Char)), (∀ w ∈ ws, GoodWord w) →
    (∀ l, l ≠ [] → allLowP l → sub2 (l ++ altOut true ws) = l ++ sepAll ws) ∧
    (∀ l, l ≠ [] → allLowP l → sub2 (l ++ altOut false ws) = l ++ sepAll ws) := by
  intro ws
  induction ws with
  | nil =>
    intro _
    constructor <;>
      · intro l _ hl
        have h0 : sub2 (l ++ []) = l ++ sub2 [] := sub2_low_run l [] hl (by simp)
        simp only [List.append_nil] at h0
        simp [altOut, sepAll, h0, sub2]
  | cons w rest ih =>
    intro hg
    obtain ⟨hlen2, hlow⟩ := hg w (by simp)
    obtain ⟨c, d, cs, rfl⟩ : ∃ c d cs, w = c :: d :: cs := by
      match w, hlen2 with
      | c :: d :: cs, _ => exact ⟨c, d, cs, rfl⟩
    have hc : isLowB c = true := hlow c (by simp)
    have hdcs : allLowP (d :: cs) := fun x hx => hlow x (by simp [hx])
    have hcap : capitalizeWord (c :: d :: cs) = upChar c :: d :: cs :=
      capitalizeWord_low c (d :: cs) hlow
    have hup : isUpB (upChar c) = true := (upChar_facts c hc).1
    have hrest : ∀ x ∈ rest, GoodWord x := fun x hx => hg x (by simp [hx])
    have hihrest := ih hrest
    have hsep : sepAll ((c :: d :: cs) :: rest)
        = '_' :: upChar c :: d :: cs ++ sepAll rest := by
      simp [sepAll, hcap]
    constructor
    · intro l hne hl
      have haltT : altOut true ((c :: d :: cs) :: rest)
          = '_' :: upChar c :: (d :: cs ++ altOut false rest) := by
        simp [altOut, hcap]
      rw [haltT, hsep]
      have e1 : sub2 (l ++ '_' :: upChar c :: (d :: cs ++ altOut false rest))
          = l ++ sub2 ('_' :: upChar c :: (d :: cs ++ altOut false rest)) :=
        sub2_low_run l _ hl (by
          intro x hxm
          obtain rfl : '_' = x := by simpa using hxm
          decide)
      rw [e1, sub2_cons_notld '_' _ (by decide),
        sub2_cons_notld (upChar c) _ (up_not_lowdig (upChar c) hup)]
      have e2 : d :: cs ++ altOut false rest = (d :: cs) ++ altOut false rest := by simp
      rw [e2, hihrest.2 (d :: cs) (by simp) hdcs]
      simp
    · intro l hne hl
      have haltF : altOut false ((c :: d :: cs) :: rest)
          = upChar c :: ((d :: cs) ++ altOut true rest) := by
        simp [altOut, hcap]
      rw [haltF, hsep]
      have e1 : sub2 (l ++ upChar c :: ((d :: cs) ++ altOut true rest))
          = l ++ '_' :: upChar c :: sub2 ((d :: cs) ++ altOut true rest) :=
        sub2_boundary l (upChar c) _ hl hne hup
      rw [e1, hihrest.1 (d :: cs) (by simp) hdcs]
      simp

/-- `sub1` on the capitalized concatenation of good words: each second
word boundary (starting with the first) receives an underscore. -/
theorem sub1_camelAll (ws : List (List Char)) (hg : ∀ w ∈ ws, GoodWord w) :
    sub1 (camelAll ws) = altOut false ws := by
  cases ws with
  | nil => simp [camelAll, altOut, sub1, sub1A]
  | cons w rest =>
    obtain ⟨hlen2, hlow⟩ := hg w (by simp)
    obtain ⟨c, d, cs, rfl⟩ : ∃ c d cs, w = c :: d :: cs := by
      match w, hlen2 with
      | c :: d :: cs, _ => exact ⟨c, d, cs, rfl⟩
    have hc : isLowB c = true := hlow c (by simp)
    have hd : isLowB d = true := hlow d (by simp)
    have hdcs : allLowP (d :: cs) := fun x hx => hlow x (by simp [hx])
    have hcap : capitalizeWord (c :: d :: cs) = upChar c :: d :: cs :=
      capitalizeWord_low c (d :: cs) hlow
    have hup : isUpB (upChar c) = true := (upChar_facts c hc).1
    have hrest : ∀ x ∈ rest, GoodWord x := fun x hx => hg x (by simp [hx])
    have hmain := (sub1A_main rest.length rest le_rfl hrest).1 (d :: cs) (by simp) hdcs
    have hcam : camelAll ((c :: d :: cs) :: rest)
        = upChar c :: d :: (cs ++ camelAll rest) := by
      simp [camelAll, hcap]
    have haltF : altOut false ((c :: d :: cs) :: rest)
        = upChar c :: d :: cs ++ altOut true rest := by
      simp [altOut, hcap]
    rw [sub1, hcam, haltF]
    have e1 : sub1A false (upChar c :: d :: (cs ++ camelAll rest))
        = upChar c :: sub1A false (d :: (cs ++ camelAll rest)) := by
      simp [sub1A, up_not_low (upChar c) hup, low_not_up d hd]
    rw [e1]
    have e2 : d :: (cs ++ camelAll rest) = (d :: cs) ++ camelAll rest := by simp
    rw [e2, hmain]
    simp

/-- `sub2` on the first pass's output: the remaining word boundaries
receive their underscores. -/
theorem sub2_altOut (w : List Char) (rest : List (List Char))
    (hg : ∀ x ∈ w :: rest, GoodWord x) :
    sub2 (altOut false (w :: rest)) = capitalizeWord w ++ sepAll rest := by
  obtain ⟨hlen2, hlow⟩ := hg w (by simp)
  obtain ⟨c, d, cs, rfl⟩ : ∃ c d cs, w = c :: d :: cs := by
    match w, hlen2 with
    | c :: d :: cs, _ => exact ⟨c, d, cs, rfl⟩
  have hc : isLowB c = true := hlow c (by simp)
  have hdcs : allLowP (d :: cs) := fun x hx => hlow x (by simp [hx])
  have hcap : capitalizeWord (c :: d :: cs) = upChar c :: d :: cs :=
    capitalizeWord_low c (d :: cs) hlow
  have hup : isUpB (upChar c) = true := (upChar_facts c hc).1
  have hrest : ∀ x ∈ rest, GoodWord x := fun x hx => hg x (by simp [hx])
  have haltF : altOut false ((c :: d :: cs) :: rest)
      = upChar c :: ((d :: cs) ++ altOut true rest) := by
    simp [altOut, hcap]
  rw [haltF, hcap,
    sub2_cons_notld (upChar c) _ (up_not_lowdig (upChar c) hup),
    (sub2_main rest hrest).1 (d :: cs) (by simp) hdcs]
  simp

/-- Lowercasing the fully separated capitalized form restores the
snake_case join. -/
theorem lowerStr_capSep : ∀ (rest : List (List Char)) (w : List Char),
    allLowP w → (∀ x ∈ rest, allLowP x) →
    lowerStr (capitalizeWord w ++ sepAll rest) = joinUnderscore (w :: rest) := by
  intro rest
  induction rest with
  | nil =>
    intro w hw _
    simp [sepAll, joinUnderscore, lowerStr_capitalizeWord w hw]
  | cons w' rest' ih =>
    intro w hw hrest
    have e0 : sepAll (w' :: rest') = '_' :: capitalizeWord w' ++ sepAll rest' := rfl
    have e1 : joinUnderscore (w :: w' :: rest') = w ++ '_' :: joinUnderscore (w' :: rest') := rfl
    rw [e0, e1]
    have e2 : lowerStr (capitalizeWord w ++ ('_' :: capitalizeWord w' ++ sepAll rest'))
        = lowerStr (capitalizeWord w) ++ '_' :: lowerStr (capitalizeWord w' ++ sepAll rest') := by
      simp [lowerStr]
      decide
    rw [e2, lowerStr_capitalizeWord w hw,
      ih w' (hrest w' (by simp)) (fun x hx => hrest x (by simp [hx]))]

/-- Scanning a word containing no underscore just accumulates it. -/
theorem splitUAux_word (w : List Char) : ∀ (acc rest : List Char),
    (∀ c ∈ w, c ≠ '_') →
    splitUnderscoreAux acc (w ++ rest) = splitUnderscoreAux (w.reverse ++ acc) rest := by
  induction w with
  | nil => intro acc rest _; simp
  | cons a w' ih =>
    intro acc rest h
    have ha : a ≠ '_' := h a (by simp)
    simp only [List.cons_append, splitUnderscoreAux, if_neg ha, List.append_eq]
    rw [ih (a :: acc) rest (fun c hc => h c (by simp [hc]))]
    simp

/-- Python `split('_')` inverts the underscore join of words that
contain no underscore. -/
theorem splitUAux_join : ∀ (rest : List (List Char)) (w acc : List Char),
    (∀ c ∈ w, c ≠ '_') → (∀ x ∈ rest, ∀ c ∈ x, c ≠ '_') →
    splitUnderscoreAux acc (joinUnderscore (w :: rest)) = (acc.reverse ++ w) :: rest := by
  intro rest
  induction rest with
  | nil =>
    intro w acc hw _
    rw [show joinUnderscore [w] = w from rfl]
    have h0 : splitUnderscoreAux acc (w ++ []) = splitUnderscoreAux (w.reverse ++ acc) [] :=
      splitUAux_word w acc [] hw
    simp only [List.append_nil] at h0
    rw [h0]
    simp [splitUnderscoreAux]
  | cons w' rest' ih =>
    intro w acc hw hrest
    have e0 : joinUnderscore (w :: w' :: rest')
        = w ++ '_' :: joinUnderscore (w' :: rest') := rfl
    rw [e0, splitUAux_word w acc ('_' :: joinUnderscore (w' :: rest')) hw]
    simp only [splitUnderscoreAux, if_pos rfl]
    rw [ih w' [] (hrest w' (by simp)) (fun x hx => hrest x (by simp [hx]))]
    simp

/-- The repository's snake-to-camel normalization of
`find_by_<w1>_..._<wn>` (lowercase words) is `findBy` followed by the
capitalized concatenation of the field words. -/
theorem snakeToCamelMethod_field (ws : List (List Char)) (hne : ws ≠ [])
    (hlow : ∀ w ∈ ws, allLowP w) :
    snakeToCamelMethod (("find_by_").data ++ joinUnderscore ws)
      = ("findBy").data ++ camelAll ws := by
  cases ws with
  | nil => exact absurd rfl hne
  | cons w rest =>
    have hnoU : ∀ x ∈ w :: rest, ∀ c ∈ x, c ≠ '_' :=
      fun x hx c hc => low_ne_underscore c (hlow x hx c hc)
    have e0 : ("find_by_").data ++ joinUnderscore (w :: rest)
        = joinUnderscore (("find").data :: ("by").data :: w :: rest) := rfl
    rw [e0]
    have e1 : splitUnderscore (joinUnderscore (("find").data :: ("by").data :: w :: rest))
        = ("find").data :: ("by").data :: w :: rest := by
      have h := splitUAux_join (("by").data :: w :: rest) (("find").data) [] (by decide)
        (by
          intro x hx
          simp only [List.mem_cons] at hx
          rcases hx with rfl | hx
          · decide
          · exact hnoU x (by simp [hx]))
      simpa [splitUnderscore] using h
    simp only [snakeToCamelMethod, e1]
    have e2 : capitalizeWord (("by").data) = ("By").data := by decide
    simp only [List.map_cons, List.flatten_cons, e2, camelAll]
    rw [← List.append_assoc]
    rfl

/-- C10 counterexample: for the snake_case field `a_b` (non-empty
lowercase alphanumeric words), the repository normalizes
`find_by_a_b` to `findByAB`, and the parser's camel-to-snake conversion
of the field yields `ab`, not the original `a_b` — the round-trip
fails because neither regex pass fires between two single-letter
words. -/
theorem c10_counterexample :
    snakeToCamelMethod (("find_by_a_b").data) = ("findByAB").data ∧
    parse (("findByAB").data) = .ok ⟨.find, [⟨("ab").data, .equals, none⟩], []⟩ ∧
    camelToSnake (camelAll [("a").data, ("b").data]) = ("ab").data ∧
    ("ab").data ≠ ("a_b").data := by
  decide

/-- C10 (amended): for a snake_case field built from words of lowercase
ASCII letters, each of length at least two, the round-trip holds: the
repository's snake-to-camel normalization turns
`find_by_<field>` into `findBy` plus the capitalized field segment, and
the parser's camel-to-snake conversion of that segment restores the
original snake_case field. -/
theorem c10_amended_casing_roundtrip :
    ∀ ws : List (List Char), ws ≠ [] → (∀ w ∈ ws, GoodWord w) →
      snakeToCamelMethod (("find_by_").data ++ joinUnderscore ws)
          = ("findBy").data ++ camelAll ws ∧
      camelToSnake (camelAll ws) = joinUnderscore ws := by
  intro ws hne hg
  refine ⟨snakeToCamelMethod_field ws hne (fun w hw => (hg w hw).2), ?_⟩
  cases ws with
  | nil => exact absurd rfl hne
  | cons w rest =>
    have h1 := sub1_camelAll (w :: rest) hg
    have h2 := sub2_altOut w rest hg
    show lowerStr (sub2 (sub1 (camelAll (w :: rest)))) = joinUnderscore (w :: rest)
    rw [h1, h2]
    exact lowerStr_capSep rest w (hg w (by simp)).2 (fun x hx => (hg x (by simp [hx])).2)

/-- C10 witness: the amended round-trip at the concrete field
`user_name`. -/
theorem c10_amended_casing_roundtrip_witness :
    snakeToCamelMethod (("find_by_").data ++ joinUnderscore [("user").data, ("name").data])
        = ("findBy").data ++ camelAll [("user").data, ("name").data] ∧
    camelToSnake (camelAll [("user").data, ("name").data])
        = joinUnderscore [("user").data, ("name").data] :=
  c10_amended_casing_roundtrip [("user").data, ("name").data] (by decide) (by decide)
